import Mathlib

/-!
Verification of the CPU mock communicator of this repository
(python/ray/experimental/channel/cpu_nccl_group.py,
python/ray/experimental/util/types.py and
python/ray/experimental/collective/allgather.py).

The Python communicator actor CPUCommunicator runs every body of wait_p2p
and wait_collective under one asyncio condition lock, so the whole system
is a sequential interleaving of atomic blocks.  Each call is modelled as
two atomic phases: the arrival phase (the code before the await of the
condition) and the completion phase (the code after the predicate
num_actors_seen equals num_actors holds).  The last arriver runs both
phases back to back.  Tensors are modelled as lists of rationals, Python
dictionaries as functions into Option, and Python exceptions as explicit
error values raised at the exact program point where the source raises.
-/

/-- Tensors of the mock are one dimensional torch tensors on the CPU; we
model a tensor as the list of its scalar entries, with exact rational
arithmetic standing in for the float arithmetic of torch. -/
abbrev Tensor := List ℚ

/-- Python exception kinds that the modelled code can raise. -/
inductive PyError
  | assertionError
  | keyError
  | valueError
  | runtimeError
  | attributeError
  | indexError
deriving DecidableEq, Repr

/-- Update of a Python dictionary at one key. -/
def setk {κ : Type} [DecidableEq κ] {α : Type} (m : κ → Option α) (k : κ) (v : α) :
    κ → Option α :=
  fun k' => if k' = k then some v else m k'

/-- The Python del statement removes the key; del on a missing key raises
KeyError, which del1 below models. -/
def delk {κ : Type} [DecidableEq κ] {α : Type} (m : κ → Option α) (k : κ) :
    κ → Option α :=
  fun k' => if k' = k then none else m k'

/-- Read of a defaultdict with default zero: a missing key reads as 0. -/
def getd {κ : Type} [DecidableEq κ] (m : κ → Option Nat) (k : κ) : Nat :=
  (m k).getD 0

/-- Model of the Python statement del m[k]: KeyError when the key is
missing, otherwise the dictionary without the key. -/
def del1 {κ : Type} [DecidableEq κ] {α : Type} (m : κ → Option α) (k : κ) :
    Except PyError (κ → Option α) :=
  match m k with
  | none => .error .keyError
  | some _ => .ok (delk m k)

/-- Operator tags of ray.experimental.util.types: the five members of
ReduceOp together with the AllGatherOp member CONCAT, all subclasses of
the common _CollectiveOp enum, so a value of any of them can reach
_apply_op at run time. -/
inductive CollectiveOp
  | SUM
  | PRODUCT
  | MAX
  | MIN
  | AVG
  | CONCAT
deriving DecidableEq, Repr

/-- Entry of CPUCommunicator.collective_data for one op id: the Python
code stores a list of tensors while contributions accumulate and then
overwrites the very same dictionary slot with the single reduced tensor
once the last contribution has arrived. -/
inductive CollData
  | accumulating (ts : List Tensor)
  | computed (t : Tensor)
deriving DecidableEq, Repr

/-- State of one CPUCommunicator actor: the fixed arity num_actors and
the four per op id dictionaries of the Python object.  data is a plain
dict (point to point buffer), collective_data, num_actors_seen and
num_actors_read are defaultdicts. -/
structure CommState where
  num_actors : Nat
  data : Nat → Option Tensor
  collective_data : Nat → Option CollData
  num_actors_seen : Nat → Option Nat
  num_actors_read : Nat → Option Nat

/-- A communicator state that holds no entry at the given op id in any of
the four dictionaries. -/
def fresh_at (c : CommState) (opId : Nat) : Prop :=
  c.data opId = none ∧ c.collective_data opId = none ∧
  c.num_actors_seen opId = none ∧ c.num_actors_read opId = none

instance (c : CommState) (opId : Nat) : Decidable (fresh_at c opId) := by
  unfold fresh_at; infer_instance

/-- A communicator state with no per op id entries at all, as built by
CPUCommunicator.__init__. -/
def CommState.empty (n : Nat) : CommState :=
  { num_actors := n
    data := fun _ => none
    collective_data := fun _ => none
    num_actors_seen := fun _ => none
    num_actors_read := fun _ => none }

/-- Arrival phase of CPUCommunicator.wait_p2p: the code from entry to the
await of the condition, run atomically under the condition lock.  When
the caller supplies data, the assert that op_id is not already staged
runs before any mutation, so an assertion failure leaves the state
untouched.  Otherwise the value is staged and the arrival counter is
bumped; a caller without data only bumps the arrival counter. -/
def wait_p2p_arrive (c : CommState) (opId : Nat) (data : Option Tensor) :
    CommState × Option PyError :=
  match data with
  | some d =>
      if (c.data opId).isSome then
        (c, some .assertionError)
      else
        let c1 := { c with data := setk c.data opId d }
        ({ c1 with num_actors_seen := setk c1.num_actors_seen opId (getd c1.num_actors_seen opId + 1) },
         none)
  | none =>
      ({ c with num_actors_seen := setk c.num_actors_seen opId (getd c.num_actors_seen opId + 1) },
       none)

/-- Completion phase of CPUCommunicator.wait_p2p: the code after the wait
predicate holds, run atomically under the condition lock.  A caller that
supplied no data reads the staged value, which raises KeyError when the
slot is empty, before the read counter is touched.  The last reader
deletes all three per op id entries. -/
def wait_p2p_complete (c : CommState) (opId : Nat) (data : Option Tensor) :
    CommState × Except PyError Tensor :=
  let d? : Except PyError Tensor :=
    match data with
    | some d => .ok d
    | none =>
        match c.data opId with
        | some d => .ok d
        | none => .error .keyError
  match d? with
  | .error e => (c, .error e)
  | .ok d =>
      let r := getd c.num_actors_read opId + 1
      let c1 := { c with num_actors_read := setk c.num_actors_read opId r }
      if r = c1.num_actors then
        match del1 c1.data opId with
        | .error e => (c1, .error e)
        | .ok dm =>
            let c2 := { c1 with data := dm }
            match del1 c2.num_actors_seen opId with
            | .error e => (c2, .error e)
            | .ok sm =>
                let c3 := { c2 with num_actors_seen := sm }
                match del1 c3.num_actors_read opId with
                | .error e => (c3, .error e)
                | .ok rm => ({ c3 with num_actors_read := rm }, .ok d)
      else (c1, .ok d)

/-- Elementwise binary operation on two torch tensors, as hit by the
augmented assignments and the torch.max and torch.min calls inside
_apply_op: defined entrywise on tensors of equal shape and an error on a
shape mismatch. -/
def tbin (f : ℚ → ℚ → ℚ) (a b : Tensor) : Except PyError Tensor :=
  if a.length = b.length then .ok (List.zipWith f a b) else .error .runtimeError

/-- Left fold of tbin over the remaining tensors, as performed by the
loops for tensor in tensors[1:] inside _apply_op. -/
def fold_bin (f : ℚ → ℚ → ℚ) : Tensor → List Tensor → Except PyError Tensor
  | result, [] => .ok result
  | result, t :: ts =>
      match tbin f result t with
      | .error e => .error e
      | .ok r => fold_bin f r ts

/-- Model of CPUCommunicator._apply_op.  The subscript tensors[0] raises
IndexError on an empty list; SUM, PRODUCT, MAX and MIN fold the
elementwise operation over the remaining tensors starting from a clone of
the first; AVG computes sum(tensors) divided by len(tensors); any other
tag, such as AllGatherOp.CONCAT, falls into the final else branch and
raises ValueError. -/
def apply_op (op : CollectiveOp) (tensors : List Tensor) : Except PyError Tensor :=
  match tensors with
  | [] => .error .indexError
  | t0 :: rest =>
      match op with
      | .SUM => fold_bin (· + ·) t0 rest
      | .PRODUCT => fold_bin (· * ·) t0 rest
      | .MAX => fold_bin max t0 rest
      | .MIN => fold_bin min t0 rest
      | .AVG =>
          match fold_bin (· + ·) t0 rest with
          | .error e => .error e
          | .ok s => .ok (s.map (fun x => x / ((rest.length + 1 : Nat) : ℚ)))
      | .CONCAT => .error .valueError

/-- Arrival phase of CPUCommunicator.wait_collective: append the
contribution to the defaultdict list (an append onto the already reduced
tensor would raise AttributeError), bump the arrival counter, and, when
this caller is the last one, apply the reduction to the full list and
overwrite the slot with the reduced tensor. -/
def wait_collective_arrive (c : CommState) (opId : Nat) (data : Tensor) (op : CollectiveOp) :
    CommState × Option PyError :=
  let l0 : Except PyError (List Tensor) :=
    match c.collective_data opId with
    | none => .ok []
    | some (.accumulating l) => .ok l
    | some (.computed _) => .error .attributeError
  match l0 with
  | .error e => (c, some e)
  | .ok l =>
      let l1 := l ++ [data]
      let c1 := { c with collective_data := setk c.collective_data opId (.accumulating l1) }
      let seen := getd c1.num_actors_seen opId + 1
      let c2 := { c1 with num_actors_seen := setk c1.num_actors_seen opId seen }
      if seen = c2.num_actors then
        match apply_op op l1 with
        | .error e => (c2, some e)
        | .ok t =>
            ({ c2 with collective_data := setk c2.collective_data opId (.computed t) }, none)
      else (c2, none)

/-- Completion phase of CPUCommunicator.wait_collective: read the slot
(the defaultdict read creates an empty list entry when the key is
missing), bump the read counter, and, when this caller is the last
reader, delete all three per op id entries.  The value returned to the
caller is whatever the slot held at the read, the reduced tensor in every
run that follows the protocol. -/
def wait_collective_complete (c : CommState) (opId : Nat) :
    CommState × Except PyError CollData :=
  let p : CommState × CollData :=
    match c.collective_data opId with
    | some e => (c, e)
    | none =>
        ({ c with collective_data := setk c.collective_data opId (.accumulating []) },
         CollData.accumulating [])
  let c0 := p.1
  let entry := p.2
  let r := getd c0.num_actors_read opId + 1
  let c1 := { c0 with num_actors_read := setk c0.num_actors_read opId r }
  if r = c1.num_actors then
    match del1 c1.collective_data opId with
    | .error e => (c1, .error e)
    | .ok cm =>
        let c2 := { c1 with collective_data := cm }
        match del1 c2.num_actors_seen opId with
        | .error e => (c2, .error e)
        | .ok sm =>
            let c3 := { c2 with num_actors_seen := sm }
            match del1 c3.num_actors_read opId with
            | .error e => (c3, .error e)
            | .ok rm => ({ c3 with num_actors_read := rm }, .ok entry)
  else (c1, .ok entry)

/-- Sequential run of the arrival phases of one collective operation:
the contributions arrive in list order, each under the condition lock.
An error stops the run at the raising caller. -/
def wait_collective_arrive_all (c : CommState) (opId : Nat) (vs : List Tensor)
    (op : CollectiveOp) : CommState × Option PyError :=
  match vs with
  | [] => (c, none)
  | v :: rest =>
      match wait_collective_arrive c opId v op with
      | (c1, none) => wait_collective_arrive_all c1 opId rest op
      | (c1, some e) => (c1, some e)

/-- Sequential run of k completion phases of one collective operation,
collecting the value each caller returns. -/
def wait_collective_complete_n (c : CommState) (opId : Nat) :
    Nat → CommState × List (Except PyError CollData)
  | 0 => (c, [])
  | k + 1 =>
      let p := wait_collective_complete c opId
      let q := wait_collective_complete_n p.1 opId k
      (q.1, p.2 :: q.2)

/-- Full point to point rendezvous for one op id in which the caller with
the value arrives first: arrival of the sender, arrival of the receiver,
completion of the receiver (the last arriver proceeds at once inside its
own atomic block), then completion of the woken sender.  The two results
are returned as (sender, receiver).  A blocked peer after an arrival
error is reported as none. -/
def p2p_exchange_sender_first (c : CommState) (opId : Nat) (t : Tensor) :
    CommState × Option (Except PyError Tensor) × Option (Except PyError Tensor) :=
  match wait_p2p_arrive c opId (some t) with
  | (c1, some e) => (c1, some (.error e), none)
  | (c1, none) =>
      match wait_p2p_arrive c1 opId none with
      | (c2, some e) => (c2, none, some (.error e))
      | (c2, none) =>
          let pr := wait_p2p_complete c2 opId none
          let ps := wait_p2p_complete pr.1 opId (some t)
          (ps.1, some ps.2, some pr.2)

/-- Full point to point rendezvous for one op id in which the caller
without the value arrives first; the sender, arriving last, completes
first. -/
def p2p_exchange_receiver_first (c : CommState) (opId : Nat) (t : Tensor) :
    CommState × Option (Except PyError Tensor) × Option (Except PyError Tensor) :=
  match wait_p2p_arrive c opId none with
  | (c1, some e) => (c1, none, some (.error e))
  | (c1, none) =>
      match wait_p2p_arrive c1 opId (some t) with
      | (c2, some e) => (c2, some (.error e), none)
      | (c2, none) =>
          let ps := wait_p2p_complete c2 opId (some t)
          let pr := wait_p2p_complete ps.1 opId none
          (pr.1, some ps.2, some pr.2)

/-- Group key computed by CPUNcclGroup.send at rank selfRank towards
peerRank, the f string communicator-{self}-{peer}. -/
def send_comm_key (selfRank peerRank : Nat) : String :=
  "communicator-" ++ Nat.repr selfRank ++ "-" ++ Nat.repr peerRank

/-- Group key computed by CPUNcclGroup.recv at rank selfRank from
peerRank, the f string communicator-{peer}-{self}: the argument order is
the reverse of the one in send, which is what pairs the two sides. -/
def recv_comm_key (peerRank selfRank : Nat) : String :=
  "communicator-" ++ Nat.repr peerRank ++ "-" ++ Nat.repr selfRank

/-- Joint state of a sender side and a receiver side CPUNcclGroup for one
rank pair, together with their shared communicator actor: send_ops and
recv_ops are the values of num_ops[comm_key] on the two group objects,
defaultdict counters that start at 0. -/
structure P2PSys where
  comm : CommState
  send_ops : Nat
  recv_ops : Nat

/-- One matched round of CPUNcclGroup.send and CPUNcclGroup.recv on the
same rank pair: each side reads its own num_ops counter as the op id,
performs the blocking wait_p2p rendezvous (modelled with the sender
arriving first), and bumps its counter only after its call returned.
The round reports the op id the sender used and the value the receiver
obtained; none stands for a call that stays blocked. -/
def send_recv_round (sys : P2PSys) (t : Tensor) :
    P2PSys × Nat × Option (Except PyError Tensor) :=
  let opS := sys.send_ops
  let opR := sys.recv_ops
  match wait_p2p_arrive sys.comm opS (some t) with
  | (c1, some _) => ({ sys with comm := c1 }, opS, none)
  | (c1, none) =>
      match wait_p2p_arrive c1 opR none with
      | (c2, some e) => ({ sys with comm := c2 }, opS, some (.error e))
      | (c2, none) =>
          let pr := wait_p2p_complete c2 opR none
          let ps := wait_p2p_complete pr.1 opS (some t)
          let sendOps' := match ps.2 with | .ok _ => opS + 1 | .error _ => opS
          let recvOps' := match pr.2 with | .ok _ => opR + 1 | .error _ => opR
          ({ comm := ps.1, send_ops := sendOps', recv_ops := recvOps' }, opS, pr.2)

/-- Sequence of matched send and recv rounds, one per tensor, collecting
for every round the op id used by the sender and the receiver result. -/
def run_send_recv_rounds (sys : P2PSys) :
    List Tensor → P2PSys × List (Nat × Option (Except PyError Tensor))
  | [] => (sys, [])
  | t :: ts =>
      let p := send_recv_round sys t
      let q := run_send_recv_rounds p.1 ts
      (q.1, p.2 :: q.2)

/-- Model of CPUNcclGroup._ensure_communicator_exists over the process
wide named actor registry, here a map from actor name to the num_actors
arity the communicator was created with.  The source first tries
ray.get_actor(name=comm_key); only when that raises ValueError does it
create a communicator, with arity 2 for point to point and the world
size otherwise.  When the name already exists nothing is compared or
checked: the call returns with the registry unchanged. -/
def ensure_communicator_exists (registry : String → Option Nat) (world_size : Nat)
    (comm_key : String) (is_p2p : Bool) : String → Option Nat :=
  match registry comm_key with
  | some _ => registry
  | none => setk registry comm_key (if is_p2p then 2 else world_size)

/-- The CONCAT tag of AllGatherOp in ray.experimental.util.types. -/
inductive AllGatherKind
  | CONCAT
deriving DecidableEq, Repr

/-- Graph producer node as seen by AllGatherWrapper.bind: the call
_get_actor_handle resolves to the owning actor, identified here by a
numeric id, or to none. -/
structure DAGNode where
  node_id : Nat
  actor_handle : Option Nat
deriving DecidableEq, Repr

/-- The _CollectiveOperation value built once by bind and shared by every
output node: the full producer list, the operation kind and the
transport. -/
structure CollectiveOperation where
  input_nodes : List DAGNode
  op : AllGatherKind
  transport : String
deriving DecidableEq, Repr

/-- One CollectiveOutputNode as built inside the loop of bind, with the
fields bind places into other_args_to_resolve. -/
structure CollectiveOutputNode where
  method_name : String
  method_args : DAGNode
  parent_class_node : Nat
  bind_index : Nat
  collective_operation : CollectiveOperation
deriving DecidableEq, Repr

/-- Loop body of AllGatherWrapper.bind: walk the input nodes in order,
fail with the source message when a node has no actor handle, otherwise
emit one output node per producer and bump the per actor dag bind index.
The bind index map stands for the _ray_dag_bind_index attribute on each
actor handle. -/
def bind_loop (cop : CollectiveOperation) (bind_idx : Nat → Nat) :
    List DAGNode → Except String ((Nat → Nat) × List CollectiveOutputNode)
  | [] => .ok (bind_idx, [])
  | n :: ns =>
      match n.actor_handle with
      | none => .error "Expected an actor handle from the input node"
      | some a =>
          let out : CollectiveOutputNode :=
            { method_name := "allgather"
              method_args := n
              parent_class_node := a
              bind_index := bind_idx a
              collective_operation := cop }
          match bind_loop cop (fun x => if x = a then bind_idx a + 1 else bind_idx x) ns with
          | .error e => .error e
          | .ok (bi, outs) => .ok (bi, out :: outs)

/-- Model of AllGatherWrapper.bind: default the transport to the NCCL
tag, build the single shared _CollectiveOperation from the full input
list, then run the output construction loop. -/
def allgather_bind (bind_idx : Nat → Nat) (input_nodes : List DAGNode)
    (transport : Option String) :
    Except String ((Nat → Nat) × List CollectiveOutputNode) :=
  let tr := transport.getD "nccl"
  let cop : CollectiveOperation :=
    { input_nodes := input_nodes, op := .CONCAT, transport := tr }
  bind_loop cop bind_idx input_nodes

/-- Heap cell model for the frame property of _apply_op: addresses are
natural numbers, next is the next fresh address, and every live tensor
object occupies one cell. -/
structure Heap where
  mem : Nat → Option Tensor
  next : Nat

/-- Allocation of a new tensor object, as done by clone and by every
torch operation that returns a new tensor. -/
def halloc (h : Heap) (v : Tensor) : Heap × Nat :=
  ({ mem := setk h.mem h.next v, next := h.next + 1 }, h.next)

/-- Read of the tensor value stored at an address. -/
def hread (h : Heap) (a : Nat) : Except PyError Tensor :=
  match h.mem a with
  | some v => .ok v
  | none => .error .keyError

/-- In place augmented assignment result op= tensor: reads both cells,
checks the shapes and overwrites the result cell only. -/
def hbin_inplace (f : ℚ → ℚ → ℚ) (h : Heap) (res src : Nat) : Except PyError Heap :=
  match hread h res with
  | .error e => .error e
  | .ok a =>
      match hread h src with
      | .error e => .error e
      | .ok b =>
          if a.length = b.length then
            .ok { h with mem := setk h.mem res (List.zipWith f a b) }
          else .error .runtimeError

/-- Out of place binary torch call such as torch.max(result, tensor):
reads both cells, checks the shapes and allocates a fresh result cell. -/
def hbin_fresh (f : ℚ → ℚ → ℚ) (h : Heap) (x y : Nat) : Except PyError (Heap × Nat) :=
  match hread h x with
  | .error e => .error e
  | .ok a =>
      match hread h y with
      | .error e => .error e
      | .ok b =>
          if a.length = b.length then .ok (halloc h (List.zipWith f a b))
          else .error .runtimeError

/-- Loop of the SUM and PRODUCT branches: repeated in place update of the
result cell across the remaining input addresses. -/
def fold_inplace (f : ℚ → ℚ → ℚ) : Heap → Nat → List Nat → Except PyError (Heap × Nat)
  | h, res, [] => .ok (h, res)
  | h, res, s :: ss =>
      match hbin_inplace f h res s with
      | .error e => .error e
      | .ok h1 => fold_inplace f h1 res ss

/-- Loop of the MAX and MIN branches and of the Python builtin sum: each
step rebinds the result name to a freshly allocated tensor. -/
def fold_fresh (f : ℚ → ℚ → ℚ) : Heap → Nat → List Nat → Except PyError (Heap × Nat)
  | h, res, [] => .ok (h, res)
  | h, res, s :: ss =>
      match hbin_fresh f h res s with
      | .error e => .error e
      | .ok (h1, r1) => fold_fresh f h1 r1 ss

/-- Heap level model of CPUCommunicator._apply_op, tracking which tensor
objects are read, mutated and allocated.  The first line clones
tensors[0] into a fresh cell; SUM and PRODUCT then mutate only that
clone in place, MAX and MIN rebind the result to fresh cells, and AVG
builds sum(tensors) out of fresh cells and divides into a fresh cell. -/
def apply_op_heap (op : CollectiveOp) (h : Heap) (tensors : List Nat) :
    Except PyError (Heap × Nat) :=
  match tensors with
  | [] => .error .indexError
  | t0 :: rest =>
      match hread h t0 with
      | .error e => .error e
      | .ok v0 =>
          let p := halloc h v0
          let h1 := p.1
          let res := p.2
          match op with
          | .SUM => fold_inplace (· + ·) h1 res rest
          | .PRODUCT => fold_inplace (· * ·) h1 res rest
          | .MAX => fold_fresh max h1 res rest
          | .MIN => fold_fresh min h1 res rest
          | .AVG =>
              match fold_fresh (· + ·) h1 t0 rest with
              | .error e => .error e
              | .ok (h2, s) =>
                  match hread h2 s with
                  | .error e => .error e
                  | .ok sv =>
                      .ok (halloc h2 (sv.map (fun x => x / ((rest.length + 1 : Nat) : ℚ))))
          | .CONCAT => .error .valueError

section MapLemmas

variable {κ : Type} [DecidableEq κ] {α : Type}

@[simp]
theorem setk_same (m : κ → Option α) (k : κ) (v : α) : setk m k v k = some v := by
  simp [setk]

theorem setk_other (m : κ → Option α) {k k' : κ} (v : α) (h : k' ≠ k) :
    setk m k v k' = m k' := by
  simp [setk, h]

@[simp]
theorem delk_same (m : κ → Option α) (k : κ) : delk m k k = none := by
  simp [delk]

theorem delk_other (m : κ → Option α) {k k' : κ} (h : k' ≠ k) : delk m k k' = m k' := by
  simp [delk, h]

theorem del1_some (m : κ → Option α) {k : κ} {v : α} (h : m k = some v) :
    del1 m k = .ok (delk m k) := by
  simp [del1, h]

theorem setk_setk (m : κ → Option α) (k : κ) (a b : α) :
    setk (setk m k a) k b = setk m k b := by
  funext k'
  by_cases h : k' = k <;> simp [setk, h]

theorem delk_setk (m : κ → Option α) (k : κ) (v : α) :
    delk (setk m k v) k = delk m k := by
  funext k'
  by_cases h : k' = k <;> simp [setk, delk, h]

theorem delk_eq_self {m : κ → Option α} {k : κ} (h : m k = none) : delk m k = m := by
  funext k'
  by_cases hk : k' = k <;> simp [delk, hk]
  exact h.symm

@[simp]
theorem getd_some {m : κ → Option Nat} {k : κ} {n : Nat} (h : m k = some n) :
    getd m k = n := by
  simp [getd, h]

@[simp]
theorem getd_none {m : κ → Option Nat} {k : κ} (h : m k = none) : getd m k = 0 := by
  simp [getd, h]

end MapLemmas

section P2PSteps

/-- Arrival of the caller that carries the value, on an op id with no
staged data yet. -/
theorem wait_p2p_arrive_some_spec (c : CommState) (opId : Nat) (t : Tensor)
    (hd : c.data opId = none) :
    wait_p2p_arrive c opId (some t) =
      ({ c with data := setk c.data opId t,
                num_actors_seen := setk c.num_actors_seen opId (getd c.num_actors_seen opId + 1) },
       none) := by
  simp [wait_p2p_arrive, hd]

/-- Arrival of the caller without a value. -/
theorem wait_p2p_arrive_none_spec (c : CommState) (opId : Nat) :
    wait_p2p_arrive c opId none =
      ({ c with num_actors_seen := setk c.num_actors_seen opId (getd c.num_actors_seen opId + 1) },
       none) := rfl

/-- Completion of a reader that is not the last one: only the read
counter changes. -/
theorem wait_p2p_complete_nonlast_none (c : CommState) (opId : Nat) {d : Tensor}
    (hd : c.data opId = some d) (hr : getd c.num_actors_read opId + 1 ≠ c.num_actors) :
    wait_p2p_complete c opId none =
      ({ c with num_actors_read := setk c.num_actors_read opId (getd c.num_actors_read opId + 1) },
       .ok d) := by
  simp [wait_p2p_complete, hd, hr]

/-- Completion of a caller with its own value that is not the last
reader. -/
theorem wait_p2p_complete_nonlast_some (c : CommState) (opId : Nat) (d : Tensor)
    (hr : getd c.num_actors_read opId + 1 ≠ c.num_actors) :
    wait_p2p_complete c opId (some d) =
      ({ c with num_actors_read := setk c.num_actors_read opId (getd c.num_actors_read opId + 1) },
       .ok d) := by
  simp [wait_p2p_complete, hr]

/-- Completion of the last reader when it reads the staged value: the
three per op id entries are deleted. -/
theorem wait_p2p_complete_last_none (c : CommState) (opId : Nat) {d : Tensor} {n : Nat}
    (hd : c.data opId = some d) (hs : c.num_actors_seen opId = some n)
    (hr : getd c.num_actors_read opId + 1 = c.num_actors) :
    wait_p2p_complete c opId none =
      ({ c with data := delk c.data opId,
                num_actors_seen := delk c.num_actors_seen opId,
                num_actors_read := delk c.num_actors_read opId },
       .ok d) := by
  simp only [wait_p2p_complete, hd, hr, if_pos rfl]
  rw [del1_some _ hd, del1_some _ hs, del1_some _ (setk_same _ _ _)]
  simp [delk_setk]

/-- Completion of the last reader when it carries its own value. -/
theorem wait_p2p_complete_last_some (c : CommState) (opId : Nat) (d : Tensor) {d' : Tensor}
    {n : Nat} (hd : c.data opId = some d') (hs : c.num_actors_seen opId = some n)
    (hr : getd c.num_actors_read opId + 1 = c.num_actors) :
    wait_p2p_complete c opId (some d) =
      ({ c with data := delk c.data opId,
                num_actors_seen := delk c.num_actors_seen opId,
                num_actors_read := delk c.num_actors_read opId },
       .ok d) := by
  simp only [wait_p2p_complete, hr, if_pos rfl]
  rw [del1_some _ hd, del1_some _ hs, del1_some _ (setk_same _ _ _)]
  simp [delk_setk]

end P2PSteps

section P2PExchange

/-- Record extensionality for communicator states. -/
theorem CommState.ext_of {a b : CommState} (h1 : a.num_actors = b.num_actors)
    (h2 : a.data = b.data) (h3 : a.collective_data = b.collective_data)
    (h4 : a.num_actors_seen = b.num_actors_seen)
    (h5 : a.num_actors_read = b.num_actors_read) : a = b := by
  cases a; cases b
  simp only at h1 h2 h3 h4 h5
  subst h1; subst h2; subst h3; subst h4; subst h5
  rfl

/-- Rendezvous with the sender first: both callers obtain the staged
value and the communicator returns to its initial state. -/
theorem p2p_exchange_sender_first_spec (c : CommState) (opId : Nat) (t : Tensor)
    (hf : fresh_at c opId) (hn : c.num_actors = 2) :
    p2p_exchange_sender_first c opId t = (c, some (.ok t), some (.ok t)) := by
  obtain ⟨hd, hcd, hs, hr⟩ := hf
  have e1 : wait_p2p_arrive c opId (some t) =
      ({ c with data := setk c.data opId t,
                num_actors_seen := setk c.num_actors_seen opId 1 }, none) := by
    rw [wait_p2p_arrive_some_spec c opId t hd]
    simp [getd_none hs]
  have e2 : wait_p2p_arrive
      ({ c with data := setk c.data opId t,
                num_actors_seen := setk c.num_actors_seen opId 1 } : CommState) opId none =
      ({ c with data := setk c.data opId t,
                num_actors_seen := setk c.num_actors_seen opId 2 }, none) := by
    rw [wait_p2p_arrive_none_spec]
    simp [getd_some (setk_same c.num_actors_seen opId 1), setk_setk]
  have e3 : wait_p2p_complete
      ({ c with data := setk c.data opId t,
                num_actors_seen := setk c.num_actors_seen opId 2 } : CommState) opId none =
      ({ c with data := setk c.data opId t,
                num_actors_seen := setk c.num_actors_seen opId 2,
                num_actors_read := setk c.num_actors_read opId 1 }, .ok t) := by
    rw [wait_p2p_complete_nonlast_none _ opId (setk_same c.data opId t)
        (by simp [getd_none hr, hn])]
    simp [getd_none hr]
  have e4 : wait_p2p_complete
      ({ c with data := setk c.data opId t,
                num_actors_seen := setk c.num_actors_seen opId 2,
                num_actors_read := setk c.num_actors_read opId 1 } : CommState) opId (some t) =
      (c, .ok t) := by
    rw [wait_p2p_complete_last_some _ opId t (setk_same c.data opId t)
        (setk_same c.num_actors_seen opId 2)
        (by simp [getd_some (setk_same c.num_actors_read opId 1), hn])]
    refine Prod.ext ?_ rfl
    exact CommState.ext_of (by simp) (by simp [delk_setk, delk_eq_self hd])
      (by simp) (by simp [delk_setk, delk_eq_self hs])
      (by simp [delk_setk, delk_eq_self hr])
  simp only [p2p_exchange_sender_first, e1, e2, e3, e4]

/-- Rendezvous with the receiver first: both callers obtain the staged
value and the communicator returns to its initial state. -/
theorem p2p_exchange_receiver_first_spec (c : CommState) (opId : Nat) (t : Tensor)
    (hf : fresh_at c opId) (hn : c.num_actors = 2) :
    p2p_exchange_receiver_first c opId t = (c, some (.ok t), some (.ok t)) := by
  obtain ⟨hd, hcd, hs, hr⟩ := hf
  have e1 : wait_p2p_arrive c opId none =
      ({ c with num_actors_seen := setk c.num_actors_seen opId 1 }, none) := by
    rw [wait_p2p_arrive_none_spec]
    simp [getd_none hs]
  have e2 : wait_p2p_arrive
      ({ c with num_actors_seen := setk c.num_actors_seen opId 1 } : CommState) opId (some t) =
      ({ c with data := setk c.data opId t,
                num_actors_seen := setk c.num_actors_seen opId 2 }, none) := by
    rw [wait_p2p_arrive_some_spec
        ({ c with num_actors_seen := setk c.num_actors_seen opId 1 } : CommState) opId t hd]
    simp [getd_some (setk_same c.num_actors_seen opId 1), setk_setk]
  have e3 : wait_p2p_complete
      ({ c with data := setk c.data opId t,
                num_actors_seen := setk c.num_actors_seen opId 2 } : CommState) opId (some t) =
      ({ c with data := setk c.data opId t,
                num_actors_seen := setk c.num_actors_seen opId 2,
                num_actors_read := setk c.num_actors_read opId 1 }, .ok t) := by
    rw [wait_p2p_complete_nonlast_some _ opId t (by simp [getd_none hr, hn])]
    simp [getd_none hr]
  have e4 : wait_p2p_complete
      ({ c with data := setk c.data opId t,
                num_actors_seen := setk c.num_actors_seen opId 2,
                num_actors_read := setk c.num_actors_read opId 1 } : CommState) opId none =
      (c, .ok t) := by
    rw [wait_p2p_complete_last_none _ opId (setk_same c.data opId t)
        (setk_same c.num_actors_seen opId 2)
        (by simp [getd_some (setk_same c.num_actors_read opId 1), hn])]
    refine Prod.ext ?_ rfl
    exact CommState.ext_of (by simp) (by simp [delk_setk, delk_eq_self hd])
      (by simp) (by simp [delk_setk, delk_eq_self hs])
      (by simp [delk_setk, delk_eq_self hr])
  simp only [p2p_exchange_receiver_first, e1, e2, e3, e4]

end P2PExchange

section CollectiveSteps

/-- Communicator state while a collective operation is accumulating: the
slot holds the contributions received so far and the arrival counter
holds their number. -/
def coll_mid (c0 : CommState) (opId : Nat) (acc : List Tensor) : CommState :=
  { c0 with collective_data := setk c0.collective_data opId (.accumulating acc),
            num_actors_seen := setk c0.num_actors_seen opId acc.length }

/-- Communicator state after the last contribution has arrived: the slot
holds the reduced tensor and the arrival counter holds n. -/
def coll_done (c0 : CommState) (opId : Nat) (t : Tensor) (n : Nat) : CommState :=
  { c0 with collective_data := setk c0.collective_data opId (.computed t),
            num_actors_seen := setk c0.num_actors_seen opId n }

/-- Communicator state after j readers have taken the reduced tensor. -/
def coll_read (c0 : CommState) (opId : Nat) (t : Tensor) (n j : Nat) : CommState :=
  { c0 with collective_data := setk c0.collective_data opId (.computed t),
            num_actors_seen := setk c0.num_actors_seen opId n,
            num_actors_read := setk c0.num_actors_read opId j }

/-- First contribution on a fresh op id, when more are expected. -/
theorem wait_collective_arrive_fresh (c0 : CommState) (opId : Nat) (v : Tensor)
    (op : CollectiveOp) (hcd : c0.collective_data opId = none)
    (hs : c0.num_actors_seen opId = none) (hne : 1 ≠ c0.num_actors) :
    wait_collective_arrive c0 opId v op = (coll_mid c0 opId [v], none) := by
  simp [wait_collective_arrive, hcd, getd_none hs, hne, coll_mid]

/-- Later contribution that is still not the last one. -/
theorem wait_collective_arrive_mid (c0 : CommState) (opId : Nat) (acc : List Tensor)
    (v : Tensor) (op : CollectiveOp) (hne : acc.length + 1 ≠ c0.num_actors) :
    wait_collective_arrive (coll_mid c0 opId acc) opId v op =
      (coll_mid c0 opId (acc ++ [v]), none) := by
  simp [wait_collective_arrive, coll_mid, setk_setk, hne,
    getd_some (setk_same c0.num_actors_seen opId acc.length)]

/-- Last contribution: the reduction is applied to the full accumulated
list and the slot is overwritten with the reduced tensor. -/
theorem wait_collective_arrive_last (c0 : CommState) (opId : Nat) (acc : List Tensor)
    (v : Tensor) (op : CollectiveOp) {t : Tensor}
    (hlast : acc.length + 1 = c0.num_actors) (happ : apply_op op (acc ++ [v]) = .ok t) :
    wait_collective_arrive (coll_mid c0 opId acc) opId v op =
      (coll_done c0 opId t (acc.length + 1), none) := by
  simp [wait_collective_arrive, coll_mid, coll_done, setk_setk, hlast, happ,
    getd_some (setk_same c0.num_actors_seen opId acc.length)]

/-- Sole contribution on a fresh op id of an arity one communicator. -/
theorem wait_collective_arrive_fresh_last (c0 : CommState) (opId : Nat) (v : Tensor)
    (op : CollectiveOp) {t : Tensor} (hcd : c0.collective_data opId = none)
    (hs : c0.num_actors_seen opId = none) (hlast : 1 = c0.num_actors)
    (happ : apply_op op [v] = .ok t) :
    wait_collective_arrive c0 opId v op = (coll_done c0 opId t 1, none) := by
  simp [wait_collective_arrive, hcd, getd_none hs, hlast.symm, happ, coll_done, setk_setk]

/-- Running all arrival phases from an accumulating state consumes the
remaining contributions and ends with the reduced tensor in the slot. -/
theorem wait_collective_arrive_all_mid (opId : Nat) (op : CollectiveOp) (t : Tensor) :
    ∀ (rest acc : List Tensor) (c0 : CommState),
    acc.length + rest.length = c0.num_actors → rest ≠ [] →
    apply_op op (acc ++ rest) = .ok t →
    wait_collective_arrive_all (coll_mid c0 opId acc) opId rest op =
      (coll_done c0 opId t c0.num_actors, none)
  | [], _, _, _, hne, _ => absurd rfl hne
  | [v], acc, c0, hlen, _, happ => by
      have hlast : acc.length + 1 = c0.num_actors := by simpa using hlen
      simp only [wait_collective_arrive_all,
        wait_collective_arrive_last c0 opId acc v op hlast happ, hlast]
  | v :: v' :: rest, acc, c0, hlen, _, happ => by
      have hne : acc.length + 1 ≠ c0.num_actors := by
        simp only [List.length_cons] at hlen; omega
      have hlen' : (acc ++ [v]).length + (v' :: rest).length = c0.num_actors := by
        simp only [List.length_append, List.length_cons, List.length_nil] at *; omega
      have happ' : apply_op op ((acc ++ [v]) ++ (v' :: rest)) = .ok t := by
        simpa [List.append_assoc] using happ
      simp only [wait_collective_arrive_all,
        wait_collective_arrive_mid c0 opId acc v op hne]
      exact wait_collective_arrive_all_mid opId op t (v' :: rest) (acc ++ [v]) c0
        hlen' (by simp) happ'

/-- Full arrival sequence of one collective operation from a fresh op
id: when the last contribution arrives the reduction of the whole list
is computed and stored. -/
theorem wait_collective_arrive_all_spec (c0 : CommState) (opId : Nat)
    (vs : List Tensor) (op : CollectiveOp) {t : Tensor}
    (hcd : c0.collective_data opId = none) (hs : c0.num_actors_seen opId = none)
    (hlen : vs.length = c0.num_actors) (hne : vs ≠ [])
    (happ : apply_op op vs = .ok t) :
    wait_collective_arrive_all c0 opId vs op =
      (coll_done c0 opId t c0.num_actors, none) := by
  match vs, hne with
  | [v], _ =>
      have hlast : 1 = c0.num_actors := by simpa using hlen
      simp only [wait_collective_arrive_all,
        wait_collective_arrive_fresh_last c0 opId v op hcd hs hlast happ, hlast]
  | v :: v' :: rest, _ =>
      have h1 : (1 : Nat) ≠ c0.num_actors := by
        simp only [List.length_cons] at hlen; omega
      simp only [wait_collective_arrive_all,
        wait_collective_arrive_fresh c0 opId v op hcd hs h1]
      exact wait_collective_arrive_all_mid opId op t (v' :: rest) [v] c0
        (by simp only [List.length_cons, List.length_nil] at hlen ⊢; omega) (by simp) happ

end CollectiveSteps


section CollectiveReads

/-- One layer unfolding of the completion sequence. -/
theorem wait_collective_complete_n_succ (c : CommState) (opId k : Nat) :
    wait_collective_complete_n c opId (k + 1) =
      ((wait_collective_complete_n (wait_collective_complete c opId).1 opId k).1,
       (wait_collective_complete c opId).2 ::
         (wait_collective_complete_n (wait_collective_complete c opId).1 opId k).2) := rfl

/-- First reader of the reduced tensor, when more readers are expected. -/
theorem wait_collective_complete_first (c0 : CommState) (opId : Nat) (t : Tensor) (n : Nat)
    (hr : c0.num_actors_read opId = none) (h1 : 1 ≠ c0.num_actors) :
    wait_collective_complete (coll_done c0 opId t n) opId =
      (coll_read c0 opId t n 1, .ok (.computed t)) := by
  simp [wait_collective_complete, coll_done, coll_read, getd_none hr, h1]

/-- Later reader that is still not the last one. -/
theorem wait_collective_complete_mid (c0 : CommState) (opId : Nat) (t : Tensor) (n j : Nat)
    (hj : j + 1 ≠ c0.num_actors) :
    wait_collective_complete (coll_read c0 opId t n j) opId =
      (coll_read c0 opId t n (j + 1), .ok (.computed t)) := by
  simp [wait_collective_complete, coll_read, setk_setk, hj,
    getd_some (setk_same c0.num_actors_read opId j)]

/-- Last reader: the three per op id entries are deleted and, the op id
having been fresh before the operation, the communicator returns to its
initial state. -/
theorem wait_collective_complete_last (c0 : CommState) (opId : Nat) (t : Tensor) (n j : Nat)
    (hcd : c0.collective_data opId = none) (hs : c0.num_actors_seen opId = none)
    (hr : c0.num_actors_read opId = none) (hj : j + 1 = c0.num_actors) :
    wait_collective_complete (coll_read c0 opId t n j) opId = (c0, .ok (.computed t)) := by
  have h1 : wait_collective_complete (coll_read c0 opId t n j) opId =
      ({ num_actors := c0.num_actors, data := c0.data,
         collective_data := delk (setk c0.collective_data opId (.computed t)) opId,
         num_actors_seen := delk (setk c0.num_actors_seen opId n) opId,
         num_actors_read := delk (setk c0.num_actors_read opId c0.num_actors) opId },
       .ok (.computed t)) := by
    simp only [wait_collective_complete, coll_read, setk_same,
      getd_some (setk_same c0.num_actors_read opId j)]
    rw [del1_some _ (setk_same c0.collective_data opId (CollData.computed t)),
      del1_some _ (setk_same c0.num_actors_seen opId n)]
    simp only [setk_setk, hj]
    rw [del1_some _ (setk_same c0.num_actors_read opId c0.num_actors)]
    simp
  rw [h1]
  refine Prod.ext ?_ rfl
  exact CommState.ext_of (by simp) (by simp)
    (by simp [delk_setk, delk_eq_self hcd])
    (by simp [delk_setk, delk_eq_self hs])
    (by simp [delk_setk, delk_eq_self hr])

/-- Sole reader of an arity one communicator. -/
theorem wait_collective_complete_first_last (c0 : CommState) (opId : Nat) (t : Tensor)
    (n : Nat) (hcd : c0.collective_data opId = none) (hs : c0.num_actors_seen opId = none)
    (hr : c0.num_actors_read opId = none) (h1 : 1 = c0.num_actors) :
    wait_collective_complete (coll_done c0 opId t n) opId = (c0, .ok (.computed t)) := by
  have h1' : wait_collective_complete (coll_done c0 opId t n) opId =
      ({ num_actors := c0.num_actors, data := c0.data,
         collective_data := delk (setk c0.collective_data opId (.computed t)) opId,
         num_actors_seen := delk (setk c0.num_actors_seen opId n) opId,
         num_actors_read := delk (setk c0.num_actors_read opId c0.num_actors) opId },
       .ok (.computed t)) := by
    simp only [wait_collective_complete, coll_done, setk_same, getd_none hr, Nat.zero_add]
    rw [del1_some _ (setk_same c0.collective_data opId (CollData.computed t)),
      del1_some _ (setk_same c0.num_actors_seen opId n)]
    simp only [h1]
    rw [del1_some _ (setk_same c0.num_actors_read opId c0.num_actors)]
    simp
  rw [h1']
  refine Prod.ext ?_ rfl
  exact CommState.ext_of (by simp) (by simp)
    (by simp [delk_setk, delk_eq_self hcd])
    (by simp [delk_setk, delk_eq_self hs])
    (by simp [delk_setk, delk_eq_self hr])

/-- Running the remaining completion phases from a half read state:
every remaining reader obtains the same reduced tensor and the last one
restores the initial state. -/
theorem wait_collective_complete_n_mid (opId : Nat) (t : Tensor) (n : Nat) :
    ∀ (k j : Nat) (c0 : CommState), c0.collective_data opId = none →
    c0.num_actors_seen opId = none → c0.num_actors_read opId = none →
    j + k = c0.num_actors → 1 ≤ k →
    wait_collective_complete_n (coll_read c0 opId t n j) opId k =
      (c0, List.replicate k (.ok (.computed t)))
  | 0, _, _, _, _, _, _, hk => absurd hk (by omega)
  | 1, j, c0, hcd, hs, hr, hlen, _ => by
      rw [wait_collective_complete_n_succ,
        wait_collective_complete_last c0 opId t n j hcd hs hr (by omega)]
      rfl
  | k + 2, j, c0, hcd, hs, hr, hlen, _ => by
      have hj : j + 1 ≠ c0.num_actors := by omega
      rw [wait_collective_complete_n_succ,
        wait_collective_complete_mid c0 opId t n j hj]
      rw [wait_collective_complete_n_mid opId t n (k + 1) (j + 1) c0 hcd hs hr
        (by omega) (by omega)]
      rfl

/-- All completion phases of one collective operation from the computed
state: each of the num_actors readers returns the identical reduced
tensor, and after the last one the communicator is back in its initial
state. -/
theorem wait_collective_complete_n_spec (c0 : CommState) (opId : Nat) (t : Tensor) (n : Nat)
    (hcd : c0.collective_data opId = none) (hs : c0.num_actors_seen opId = none)
    (hr : c0.num_actors_read opId = none) (hpos : 1 ≤ c0.num_actors) :
    wait_collective_complete_n (coll_done c0 opId t n) opId c0.num_actors =
      (c0, List.replicate c0.num_actors (.ok (.computed t))) := by
  rcases Nat.exists_eq_add_of_le hpos with ⟨k, hk⟩
  rcases Nat.eq_zero_or_pos k with hk0 | hkpos
  · have hk1 : c0.num_actors = 0 + 1 := by omega
    rw [hk1]
    rw [wait_collective_complete_n_succ,
      wait_collective_complete_first_last c0 opId t n hcd hs hr (by omega)]
    rfl
  · have h1 : (1 : Nat) ≠ c0.num_actors := by omega
    have hk1 : c0.num_actors = k + 1 := by omega
    rw [hk1, wait_collective_complete_n_succ,
      wait_collective_complete_first c0 opId t n hr h1]
    rw [wait_collective_complete_n_mid opId t n k 1 c0 hcd hs hr (by omega) hkpos]
    rfl

end CollectiveReads

section SendRecvRounds

/-- One matched send and recv round from equal counters on a fresh op
id: the receiver obtains exactly the sent tensor, both counters advance
by exactly one, and the communicator returns to its initial state. -/
theorem send_recv_round_spec (c : CommState) (k : Nat) (t : Tensor)
    (hf : fresh_at c k) (hn : c.num_actors = 2) :
    send_recv_round ⟨c, k, k⟩ t = (⟨c, k + 1, k + 1⟩, k, some (.ok t)) := by
  obtain ⟨hd, hcd, hs, hr⟩ := hf
  have e1 : wait_p2p_arrive c k (some t) =
      ({ c with data := setk c.data k t,
                num_actors_seen := setk c.num_actors_seen k 1 }, none) := by
    rw [wait_p2p_arrive_some_spec c k t hd]
    simp [getd_none hs]
  have e2 : wait_p2p_arrive
      ({ c with data := setk c.data k t,
                num_actors_seen := setk c.num_actors_seen k 1 } : CommState) k none =
      ({ c with data := setk c.data k t,
                num_actors_seen := setk c.num_actors_seen k 2 }, none) := by
    rw [wait_p2p_arrive_none_spec]
    simp [getd_some (setk_same c.num_actors_seen k 1), setk_setk]
  have e3 : wait_p2p_complete
      ({ c with data := setk c.data k t,
                num_actors_seen := setk c.num_actors_seen k 2 } : CommState) k none =
      ({ c with data := setk c.data k t,
                num_actors_seen := setk c.num_actors_seen k 2,
                num_actors_read := setk c.num_actors_read k 1 }, .ok t) := by
    rw [wait_p2p_complete_nonlast_none _ k (setk_same c.data k t)
        (by simp [getd_none hr, hn])]
    simp [getd_none hr]
  have e4 : wait_p2p_complete
      ({ c with data := setk c.data k t,
                num_actors_seen := setk c.num_actors_seen k 2,
                num_actors_read := setk c.num_actors_read k 1 } : CommState) k (some t) =
      (c, .ok t) := by
    rw [wait_p2p_complete_last_some _ k t (setk_same c.data k t)
        (setk_same c.num_actors_seen k 2)
        (by simp [getd_some (setk_same c.num_actors_read k 1), hn])]
    refine Prod.ext ?_ rfl
    exact CommState.ext_of (by simp) (by simp [delk_setk, delk_eq_self hd])
      (by simp) (by simp [delk_setk, delk_eq_self hs])
      (by simp [delk_setk, delk_eq_self hr])
  simp only [send_recv_round, e1, e2, e3, e4]

/-- Sequence of matched rounds starting from counter value k: round i
uses op id k + i, the receiver of round i obtains the tensor sent in
round i, and both counters end advanced by the number of rounds. -/
theorem run_send_recv_rounds_spec (c : CommState) (hn : c.num_actors = 2)
    (hall : ∀ j, fresh_at c j) :
    ∀ (vs : List Tensor) (k : Nat),
    run_send_recv_rounds ⟨c, k, k⟩ vs =
      (⟨c, k + vs.length, k + vs.length⟩,
       (List.range' k vs.length).zip (vs.map (fun t => some (Except.ok t))))
  | [], k => by simp [run_send_recv_rounds, List.range']
  | t :: ts, k => by
      simp only [run_send_recv_rounds, send_recv_round_spec c k t (hall k) hn]
      rw [run_send_recv_rounds_spec c hn hall ts (k + 1)]
      have hlen : k + 1 + ts.length = k + (ts.length + 1) := by omega
      simp [List.range', hlen]

end SendRecvRounds

section ReductionSpec

/-- Entry i of an elementwise combination of two same length tensors. -/
theorem getD_zipWith (f : ℚ → ℚ → ℚ) :
    ∀ (a b : List ℚ) (i : Nat), i < a.length → i < b.length →
    (List.zipWith f a b).getD i 0 = f (a.getD i 0) (b.getD i 0)
  | [], _, i, ha, _ => absurd ha (by simp)
  | _ :: _, [], i, _, hb => absurd hb (by simp)
  | x :: a, y :: b, 0, _, _ => by simp [List.getD]
  | x :: a, y :: b, i + 1, ha, hb => by
      simpa [List.getD] using
        getD_zipWith f a b i (by simpa using ha) (by simpa using hb)

/-- The fold of the elementwise operation over same shape tensors
succeeds, keeps the shape, and computes the scalar fold at every
entry. -/
theorem fold_bin_spec (f : ℚ → ℚ → ℚ) (n : Nat) :
    ∀ (ts : List Tensor) (t0 : Tensor), t0.length = n → (∀ u ∈ ts, u.length = n) →
    ∃ r, fold_bin f t0 ts = .ok r ∧ r.length = n ∧
      ∀ i, i < n → r.getD i 0 = (ts.map (fun u => u.getD i 0)).foldl f (t0.getD i 0)
  | [], t0, h0, _ => ⟨t0, rfl, h0, by simp⟩
  | t :: ts, t0, h0, hts => by
      have ht : t.length = n := hts t (by simp)
      have hz : (List.zipWith f t0 t).length = n := by simp [h0, ht]
      obtain ⟨r, hr, hrl, hri⟩ :=
        fold_bin_spec f n ts (List.zipWith f t0 t) hz
          (fun u hu => hts u (by simp [hu]))
      refine ⟨r, ?_, hrl, ?_⟩
      · simp [fold_bin, tbin, h0, ht, hr]
      · intro i hi
        rw [hri i hi, List.map_cons, List.foldl_cons,
          getD_zipWith f t0 t i (by omega) (by omega)]

/-- Scalar left fold of addition in terms of the list sum. -/
theorem foldl_add_eq_sum (l : List ℚ) : ∀ a : ℚ, l.foldl (· + ·) a = a + l.sum := by
  induction l with
  | nil => intro a; simp
  | cons x l ih => intro a; simp [ih, add_assoc]

/-- Scalar left fold of multiplication in terms of the list product. -/
theorem foldl_mul_eq_prod (l : List ℚ) : ∀ a : ℚ, l.foldl (· * ·) a = a * l.prod := by
  induction l with
  | nil => intro a; simp
  | cons x l ih => intro a; simp [ih, mul_assoc]

/-- Elementwise mathematical fold of a combining function over the entry
i contributions of a non empty list of tensors, written from the words
of the specification. -/
def elemwise_fold (g : ℚ → ℚ → ℚ) (l : List Tensor) (i : Nat) : ℚ :=
  match l with
  | [] => 0
  | v :: vs => (vs.map (fun u => u.getD i 0)).foldl g (v.getD i 0)

end ReductionSpec

section BindLemmas

/-- A producer without an owning actor makes the whole loop fail with
the source error message. -/
theorem bind_loop_missing_handle :
    ∀ (ns : List DAGNode) (cop : CollectiveOperation) (bi : Nat → Nat),
    (∃ nd ∈ ns, nd.actor_handle = none) →
    bind_loop cop bi ns = .error "Expected an actor handle from the input node"
  | [], _, _, h => absurd h (by simp)
  | n :: ns, cop, bi, h => by
      match hnh : n.actor_handle with
      | none => simp [bind_loop, hnh]
      | some a =>
          have h' : ∃ nd ∈ ns, nd.actor_handle = none := by
            rcases h with ⟨nd, hmem, hnone⟩
            rcases List.mem_cons.mp hmem with rfl | hmem'
            · rw [hnh] at hnone; exact absurd hnone (by simp)
            · exact ⟨nd, hmem', hnone⟩
          simp [bind_loop, hnh,
            bind_loop_missing_handle ns cop (fun x => if x = a then bi a + 1 else bi x) h']

/-- When every producer has an owning actor the loop returns one output
node per producer, in input order, all sharing the one collective
operation value. -/
theorem bind_loop_ok :
    ∀ (ns : List DAGNode) (cop : CollectiveOperation) (bi : Nat → Nat),
    (∀ nd ∈ ns, (nd.actor_handle).isSome) →
    ∃ bi2 outs, bind_loop cop bi ns = .ok (bi2, outs) ∧
      outs.map (fun o => o.method_args) = ns ∧
      outs.map (fun o => some o.parent_class_node) = ns.map (fun nd => nd.actor_handle) ∧
      (∀ o ∈ outs, o.collective_operation = cop) ∧
      (∀ o ∈ outs, o.method_name = "allgather")
  | [], cop, bi, _ => ⟨bi, [], rfl, rfl, rfl, by simp, by simp⟩
  | nd :: ns, cop, bi, h => by
      obtain ⟨a, ha⟩ := Option.isSome_iff_exists.mp (h nd (by simp))
      obtain ⟨bi2, outs, hb, hm, hp, hcop, hname⟩ :=
        bind_loop_ok ns cop (fun x => if x = a then bi a + 1 else bi x)
          (fun u hu => h u (by simp [hu]))
      refine ⟨bi2,
        { method_name := "allgather", method_args := nd, parent_class_node := a,
          bind_index := bi a, collective_operation := cop } :: outs, ?_, ?_, ?_, ?_, ?_⟩
      · simp [bind_loop, ha, hb]
      · simp [hm]
      · simp [hp, ha]
      · intro o ho
        rcases List.mem_cons.mp ho with rfl | ho'
        · rfl
        · exact hcop o ho'
      · intro o ho
        rcases List.mem_cons.mp ho with rfl | ho'
        · rfl
        · exact hname o ho'

end BindLemmas

section HeapLemmas

/-- An in place update touches only the result cell and allocates
nothing. -/
theorem hbin_inplace_frame (f : ℚ → ℚ → ℚ) (h : Heap) (res src : Nat) (h1 : Heap)
    (hh : hbin_inplace f h res src = .ok h1) :
    h1.next = h.next ∧ ∀ a, a ≠ res → h1.mem a = h.mem a := by
  unfold hbin_inplace at hh
  split at hh
  · exact absurd hh (by simp)
  · split at hh
    · exact absurd hh (by simp)
    · split at hh
      · cases hh
        exact ⟨rfl, fun a hane => setk_other h.mem _ hane⟩
      · exact absurd hh (by simp)

/-- A fresh binary operation preserves every already allocated cell and
returns the next fresh address. -/
theorem hbin_fresh_spec (f : ℚ → ℚ → ℚ) (h : Heap) (x y : Nat) (h1 : Heap) (r1 : Nat)
    (hh : hbin_fresh f h x y = .ok (h1, r1)) :
    h1.next = h.next + 1 ∧ r1 = h.next ∧ ∀ a, a < h.next → h1.mem a = h.mem a := by
  unfold hbin_fresh at hh
  split at hh
  · exact absurd hh (by simp)
  · split at hh
    · exact absurd hh (by simp)
    · split at hh
      · cases hh
        exact ⟨rfl, rfl, fun a ha => setk_other h.mem _ (by omega)⟩
      · exact absurd hh (by simp)

/-- The in place folds of the SUM and PRODUCT branches mutate only the
result cell. -/
theorem fold_inplace_frame (f : ℚ → ℚ → ℚ) :
    ∀ (ss : List Nat) (h : Heap) (res : Nat) (h' : Heap) (res' : Nat),
    fold_inplace f h res ss = .ok (h', res') →
    res' = res ∧ h'.next = h.next ∧ ∀ a, a ≠ res → h'.mem a = h.mem a
  | [], h, res, h', res', hh => by
      cases hh
      exact ⟨rfl, rfl, fun _ _ => rfl⟩
  | s :: ss, h, res, h', res', hh => by
      unfold fold_inplace at hh
      split at hh
      · exact absurd hh (by simp)
      next h1 hb =>
        obtain ⟨hn1, hm1⟩ := hbin_inplace_frame f h res s h1 hb
        obtain ⟨hr, hn, hm⟩ := fold_inplace_frame f ss h1 res h' res' hh
        exact ⟨hr, by omega, fun a ha => by rw [hm a ha, hm1 a ha]⟩

/-- The fresh folds of the MAX, MIN and AVG branches never write to an
already allocated cell, and end on either the start address or a cell
allocated during the fold. -/
theorem fold_fresh_frame (f : ℚ → ℚ → ℚ) :
    ∀ (ss : List Nat) (h : Heap) (res : Nat) (h' : Heap) (res' : Nat),
    fold_fresh f h res ss = .ok (h', res') →
    h.next ≤ h'.next ∧ (∀ a, a < h.next → h'.mem a = h.mem a) ∧
      (res' = res ∨ (h.next ≤ res' ∧ res' < h'.next))
  | [], h, res, h', res', hh => by
      cases hh
      exact ⟨Nat.le_refl _, fun _ _ => rfl, Or.inl rfl⟩
  | s :: ss, h, res, h', res', hh => by
      unfold fold_fresh at hh
      split at hh
      · exact absurd hh (by simp)
      next h1 r1 hb =>
        obtain ⟨hn1, hr1, hm1⟩ := hbin_fresh_spec f h res s h1 r1 hb
        obtain ⟨hle, hm, hres⟩ := fold_fresh_frame f ss h1 r1 h' res' hh
        refine ⟨by omega, fun a ha => by rw [hm a (by omega), hm1 a ha], ?_⟩
        rcases hres with rfl | ⟨hge, hlt⟩
        · exact Or.inr ⟨by omega, by omega⟩
        · exact Or.inr ⟨by omega, hlt⟩

end HeapLemmas

section HeapMain

/-- Frame property of the heap level _apply_op: no input cell is ever
written and the returned tensor lives in a cell allocated during the
call. -/
theorem apply_op_heap_frame (op : CollectiveOp) (h : Heap) (tensors : List Nat)
    (h' : Heap) (res : Nat) (hvalid : ∀ a ∈ tensors, a < h.next)
    (hok : apply_op_heap op h tensors = .ok (h', res)) :
    (∀ a, a < h.next → h'.mem a = h.mem a) ∧ h.next ≤ res ∧ res ∉ tensors := by
  cases tensors with
  | nil => exact absurd hok (by simp [apply_op_heap])
  | cons t0 rest =>
    cases op with
    | SUM =>
        simp only [apply_op_heap, halloc] at hok
        split at hok
        · exact absurd hok (by simp)
        next v0 hv0 =>
          obtain ⟨hr, hn, hm⟩ := fold_inplace_frame _ rest _ _ h' res hok
          have hnn : h'.next = h.next + 1 := by simpa using hn
          refine ⟨fun a ha => ?_, by omega, fun hmem => ?_⟩
          · rw [hm a (by omega)]
            exact setk_other h.mem v0 (by omega)
          · have := hvalid res hmem; omega
    | PRODUCT =>
        simp only [apply_op_heap, halloc] at hok
        split at hok
        · exact absurd hok (by simp)
        next v0 hv0 =>
          obtain ⟨hr, hn, hm⟩ := fold_inplace_frame _ rest _ _ h' res hok
          have hnn : h'.next = h.next + 1 := by simpa using hn
          refine ⟨fun a ha => ?_, by omega, fun hmem => ?_⟩
          · rw [hm a (by omega)]
            exact setk_other h.mem v0 (by omega)
          · have := hvalid res hmem; omega
    | MAX =>
        simp only [apply_op_heap, halloc] at hok
        split at hok
        · exact absurd hok (by simp)
        next v0 hv0 =>
          obtain ⟨hle, hm, hres⟩ := fold_fresh_frame _ rest _ _ h' res hok
          have hle' : h.next + 1 ≤ h'.next := by simpa using hle
          have hge : h.next ≤ res := by
            rcases hres with rfl | ⟨hge, _⟩
            · omega
            · simp at hge; omega
          refine ⟨fun a ha => ?_, hge, fun hmem => ?_⟩
          · rw [hm a (by simpa using Nat.lt_succ_of_lt ha)]
            exact setk_other h.mem v0 (by omega)
          · have := hvalid res hmem; omega
    | MIN =>
        simp only [apply_op_heap, halloc] at hok
        split at hok
        · exact absurd hok (by simp)
        next v0 hv0 =>
          obtain ⟨hle, hm, hres⟩ := fold_fresh_frame _ rest _ _ h' res hok
          have hle' : h.next + 1 ≤ h'.next := by simpa using hle
          have hge : h.next ≤ res := by
            rcases hres with rfl | ⟨hge, _⟩
            · omega
            · simp at hge; omega
          refine ⟨fun a ha => ?_, hge, fun hmem => ?_⟩
          · rw [hm a (by simpa using Nat.lt_succ_of_lt ha)]
            exact setk_other h.mem v0 (by omega)
          · have := hvalid res hmem; omega
    | AVG =>
        simp only [apply_op_heap, halloc] at hok
        split at hok
        · exact absurd hok (by simp)
        next v0 hv0 =>
          split at hok
          · exact absurd hok (by simp)
          next h2 s hff =>
            split at hok
            · exact absurd hok (by simp)
            next sv hsv =>
              obtain ⟨hle, hm, _⟩ := fold_fresh_frame _ rest _ _ h2 s hff
              have hle' : h.next + 1 ≤ h2.next := by simpa using hle
              have hinj := hok
              rw [Except.ok.injEq, Prod.mk.injEq] at hinj
              obtain ⟨hh', hres⟩ := hinj
              refine ⟨fun a ha => ?_, by omega, fun hmem => ?_⟩
              · rw [← hh']
                have h1 : setk h2.mem h2.next
                    (sv.map (fun x => x / ((rest.length + 1 : Nat) : ℚ))) a = h2.mem a :=
                  setk_other h2.mem _ (by omega)
                have h2m : h2.mem a = setk h.mem h.next v0 a := hm a (by simpa using Nat.lt_succ_of_lt ha)
                have h3 : setk h.mem h.next v0 a = h.mem a := setk_other h.mem v0 (by omega)
                exact h1.trans (h2m.trans h3)
              · rw [← hres] at hmem
                have := hvalid h2.next hmem; omega
    | CONCAT =>
        simp only [apply_op_heap] at hok
        split at hok
        · exact absurd hok (by simp)
        · exact absurd hok (by simp)

end HeapMain

section Claims

/-- Entry i of a mapped tensor. -/
theorem getD_map (f : ℚ → ℚ) : ∀ (l : List ℚ) (i : Nat), i < l.length →
    (l.map f).getD i 0 = f (l.getD i 0)
  | [], i, hi => absurd hi (by simp)
  | x :: l, 0, _ => by simp [List.getD]
  | x :: l, i + 1, hi => by
      simpa [List.getD] using getD_map f l i (by simpa using hi)

/-- CLAIM C1: for a collective operation with N participants, when the
Nth call to waitCollective for a given op id arrives, the reduction
function is applied to the full list of the N contributed values, and
every one of the N callers returns the identical reduced value. -/
theorem claim_c1_wait_collective_identical (c : CommState) (opId : Nat)
    (vs : List Tensor) (op : CollectiveOp) (t : Tensor)
    (hf : fresh_at c opId) (hn : c.num_actors = vs.length) (hne : vs ≠ [])
    (happ : apply_op op vs = .ok t) :
    wait_collective_arrive_all c opId vs op = (coll_done c opId t c.num_actors, none) ∧
    (wait_collective_complete_n (coll_done c opId t c.num_actors) opId c.num_actors).2 =
      List.replicate c.num_actors (.ok (.computed t)) := by
  obtain ⟨hd, hcd, hs, hr⟩ := hf
  have hpos : 1 ≤ c.num_actors := by
    rw [hn]; exact List.length_pos.mpr hne
  refine ⟨wait_collective_arrive_all_spec c opId vs op hcd hs hn.symm hne happ, ?_⟩
  rw [wait_collective_complete_n_spec c opId t c.num_actors hcd hs hr hpos]

/-- Witness for claim C1 on a two participant sum. -/
theorem claim_c1_witness :
    wait_collective_arrive_all (CommState.empty 2) 0 [[1], [2]] .SUM =
      (coll_done (CommState.empty 2) 0 [3] 2, none) ∧
    (wait_collective_complete_n (coll_done (CommState.empty 2) 0 [3] 2) 0 2).2 =
      List.replicate 2 (.ok (.computed [3])) :=
  claim_c1_wait_collective_identical (CommState.empty 2) 0 [[1], [2]] .SUM [3]
    ⟨rfl, rfl, rfl, rfl⟩ rfl (by decide) (by norm_num [apply_op, fold_bin, tbin])

/-- CLAIM C2: for every non empty list of same shape values the
reduction function returns the mathematical elementwise fold for each of
the five reduction kinds, with the average of two and four equal to
three, the sum of one two three equal to six and the max of five one
nine equal to nine, and it raises an error for the operator tag outside
these five. -/
theorem claim_c2_apply_op_mathematical :
    (∀ (l : List Tensor) (n : Nat), l ≠ [] → (∀ u ∈ l, u.length = n) →
      (∃ r, apply_op .SUM l = .ok r ∧ r.length = n ∧
        ∀ i, i < n → r.getD i 0 = (l.map (fun u => u.getD i 0)).sum) ∧
      (∃ r, apply_op .PRODUCT l = .ok r ∧ r.length = n ∧
        ∀ i, i < n → r.getD i 0 = (l.map (fun u => u.getD i 0)).prod) ∧
      (∃ r, apply_op .MAX l = .ok r ∧ r.length = n ∧
        ∀ i, i < n → r.getD i 0 = elemwise_fold max l i) ∧
      (∃ r, apply_op .MIN l = .ok r ∧ r.length = n ∧
        ∀ i, i < n → r.getD i 0 = elemwise_fold min l i) ∧
      (∃ r, apply_op .AVG l = .ok r ∧ r.length = n ∧
        ∀ i, i < n → r.getD i 0 = (l.map (fun u => u.getD i 0)).sum / (l.length : ℚ)) ∧
      apply_op .CONCAT l = .error .valueError) ∧
    apply_op .AVG [[2], [4]] = .ok [3] ∧
    apply_op .SUM [[1], [2], [3]] = .ok [6] ∧
    apply_op .MAX [[5], [1], [9]] = .ok [9] := by
  refine ⟨?_, by norm_num [apply_op, fold_bin, tbin],
    by norm_num [apply_op, fold_bin, tbin], by norm_num [apply_op, fold_bin, tbin]⟩
  rintro (_ | ⟨v, vs⟩) n hne hlen
  · exact absurd rfl hne
  have hv : v.length = n := hlen v (by simp)
  have hvs : ∀ u ∈ vs, u.length = n := fun u hu => hlen u (by simp [hu])
  refine ⟨?_, ?_, ?_, ?_, ?_, rfl⟩
  · obtain ⟨r, hr, hrl, hri⟩ := fold_bin_spec (· + ·) n vs v hv hvs
    refine ⟨r, hr, hrl, fun i hi => ?_⟩
    rw [hri i hi, foldl_add_eq_sum, List.map_cons, List.sum_cons]
  · obtain ⟨r, hr, hrl, hri⟩ := fold_bin_spec (· * ·) n vs v hv hvs
    refine ⟨r, hr, hrl, fun i hi => ?_⟩
    rw [hri i hi, foldl_mul_eq_prod, List.map_cons, List.prod_cons]
  · obtain ⟨r, hr, hrl, hri⟩ := fold_bin_spec max n vs v hv hvs
    exact ⟨r, hr, hrl, fun i hi => hri i hi⟩
  · obtain ⟨r, hr, hrl, hri⟩ := fold_bin_spec min n vs v hv hvs
    exact ⟨r, hr, hrl, fun i hi => hri i hi⟩
  · obtain ⟨s, hsum, hsl, hsi⟩ := fold_bin_spec (· + ·) n vs v hv hvs
    refine ⟨s.map (fun x => x / ((vs.length + 1 : Nat) : ℚ)), ?_, by simp [hsl], ?_⟩
    · simp [apply_op, hsum]
    · intro i hi
      rw [getD_map _ s i (by omega)]
      rw [hsi i hi, foldl_add_eq_sum, List.map_cons, List.sum_cons]
      simp [List.length_cons]

/-- Witness for claim C2 at the average example of the specification. -/
theorem claim_c2_witness :
    (∃ r, apply_op .AVG [[2], [4]] = .ok r ∧ r.length = 1 ∧
      ∀ i, i < 1 → r.getD i 0 =
        (([[2], [4]] : List Tensor).map (fun u => u.getD i 0)).sum /
          (([[2], [4]] : List Tensor).length : ℚ)) ∧
    apply_op .CONCAT [[2], [4]] = .error .valueError :=
  ⟨((claim_c2_apply_op_mathematical).1 [[2], [4]] 1 (by decide)
      (by decide)).2.2.2.2.1,
   ((claim_c2_apply_op_mathematical).1 [[2], [4]] 1 (by decide)
      (by decide)).2.2.2.2.2⟩

/-- CLAIM C3: a second wait_p2p call supplying a value for an op id that
already has a staged value fails with an assertion error and leaves the
staged value and the arrival count untouched. -/
theorem claim_c3_duplicate_value_rejected (c : CommState) (opId : Nat) (v d : Tensor)
    (hstaged : c.data opId = some v) :
    wait_p2p_arrive c opId (some d) = (c, some .assertionError) ∧
    (wait_p2p_arrive c opId (some d)).1.data opId = some v ∧
    (wait_p2p_arrive c opId (some d)).1.num_actors_seen opId = c.num_actors_seen opId := by
  have h : wait_p2p_arrive c opId (some d) = (c, some .assertionError) := by
    simp [wait_p2p_arrive, hstaged]
  exact ⟨h, by rw [h]; exact hstaged, by rw [h]⟩

/-- Witness for claim C3 with one staged tensor. -/
theorem claim_c3_witness :
    wait_p2p_arrive
        { CommState.empty 2 with data := setk (CommState.empty 2).data 0 [1] } 0 (some [2]) =
      ({ CommState.empty 2 with data := setk (CommState.empty 2).data 0 [1] },
       some .assertionError) :=
  (claim_c3_duplicate_value_rejected
    { CommState.empty 2 with data := setk (CommState.empty 2).data 0 [1] } 0 [1] [2] rfl).1

/-- CLAIM C4: in a point to point rendezvous where exactly one of the
two callers supplies the value, both callers return exactly that value,
in either arrival order. -/
theorem claim_c4_p2p_both_orders (c : CommState) (opId : Nat) (v : Tensor)
    (hf : fresh_at c opId) (hn : c.num_actors = 2) :
    p2p_exchange_sender_first c opId v = (c, some (.ok v), some (.ok v)) ∧
    p2p_exchange_receiver_first c opId v = (c, some (.ok v), some (.ok v)) :=
  ⟨p2p_exchange_sender_first_spec c opId v hf hn,
   p2p_exchange_receiver_first_spec c opId v hf hn⟩

/-- Witness for claim C4 on a fresh arity two communicator. -/
theorem claim_c4_witness :
    p2p_exchange_sender_first (CommState.empty 2) 0 [5] =
      (CommState.empty 2, some (.ok [5]), some (.ok [5])) ∧
    p2p_exchange_receiver_first (CommState.empty 2) 0 [5] =
      (CommState.empty 2, some (.ok [5]), some (.ok [5])) :=
  claim_c4_p2p_both_orders (CommState.empty 2) 0 [5] ⟨rfl, rfl, rfl, rfl⟩ rfl

end Claims

section ClaimC5

/-- Counterexample to claim C5 as stated: on a fresh arity two
communicator the first wait_p2p arrival (here the caller without a
value) succeeds and creates the arrival count entry, yet neither a
staged data entry nor a read count entry exists afterwards, so the per
op id state listed in the claim is not created in full on the first
arrival. -/
theorem claim_c5_counterexample :
    (wait_p2p_arrive (CommState.empty 2) 0 none).2 = none ∧
    (wait_p2p_arrive (CommState.empty 2) 0 none).1.num_actors_seen 0 = some 1 ∧
    (wait_p2p_arrive (CommState.empty 2) 0 none).1.data 0 = none ∧
    (wait_p2p_arrive (CommState.empty 2) 0 none).1.num_actors_read 0 = none := by
  refine ⟨rfl, ?_, rfl, rfl⟩
  simp [wait_p2p_arrive, CommState.empty, getd, setk]

/-- CLAIM C5 amended: the arrival count entry, and the staged or
accumulated data entry exactly when a value is contributed, are created
on the first arrival for an op id; the read count entry is created on
the first read; the entries that exist are kept until the read count
reaches the participant count, at which point every per op id entry in
the three maps is erased. -/
theorem claim_c5_amended_lifecycle (c : CommState) (opId : Nat) (v : Tensor)
    (hf : fresh_at c opId) (hn : c.num_actors = 2) :
    ((wait_p2p_arrive c opId (some v)).1.data opId = some v ∧
     (wait_p2p_arrive c opId (some v)).1.num_actors_seen opId = some 1 ∧
     (wait_p2p_arrive c opId (some v)).1.num_actors_read opId = none) ∧
    ((wait_p2p_arrive c opId none).1.data opId = none ∧
     (wait_p2p_arrive c opId none).1.num_actors_seen opId = some 1 ∧
     (wait_p2p_arrive c opId none).1.num_actors_read opId = none) ∧
    ((wait_p2p_complete
        (wait_p2p_arrive (wait_p2p_arrive c opId (some v)).1 opId none).1
        opId none).1.data opId = some v ∧
     (wait_p2p_complete
        (wait_p2p_arrive (wait_p2p_arrive c opId (some v)).1 opId none).1
        opId none).1.num_actors_seen opId = some 2 ∧
     (wait_p2p_complete
        (wait_p2p_arrive (wait_p2p_arrive c opId (some v)).1 opId none).1
        opId none).1.num_actors_read opId = some 1) ∧
    (wait_p2p_complete
      (wait_p2p_complete
        (wait_p2p_arrive (wait_p2p_arrive c opId (some v)).1 opId none).1
        opId none).1 opId (some v)).1 = c ∧
    (∀ (c' : CommState) (opId' : Nat) (vs : List Tensor) (op : CollectiveOp) (t : Tensor),
      fresh_at c' opId' → c'.num_actors = vs.length → vs ≠ [] →
      apply_op op vs = .ok t →
      ((wait_collective_arrive_all c' opId' vs op).1.collective_data opId' =
          some (.computed t) ∧
       (wait_collective_arrive_all c' opId' vs op).1.num_actors_seen opId' =
          some vs.length ∧
       (wait_collective_arrive_all c' opId' vs op).1.num_actors_read opId' = none) ∧
      (wait_collective_complete_n
        (wait_collective_arrive_all c' opId' vs op).1 opId' vs.length).1 = c') := by
  obtain ⟨hd, hcd, hs, hr⟩ := hf
  have e1 : wait_p2p_arrive c opId (some v) =
      ({ c with data := setk c.data opId v,
                num_actors_seen := setk c.num_actors_seen opId 1 }, none) := by
    rw [wait_p2p_arrive_some_spec c opId v hd]
    simp [getd_none hs]
  have e2 : wait_p2p_arrive
      ({ c with data := setk c.data opId v,
                num_actors_seen := setk c.num_actors_seen opId 1 } : CommState) opId none =
      ({ c with data := setk c.data opId v,
                num_actors_seen := setk c.num_actors_seen opId 2 }, none) := by
    rw [wait_p2p_arrive_none_spec]
    simp [getd_some (setk_same c.num_actors_seen opId 1), setk_setk]
  have e3 : wait_p2p_complete
      ({ c with data := setk c.data opId v,
                num_actors_seen := setk c.num_actors_seen opId 2 } : CommState) opId none =
      ({ c with data := setk c.data opId v,
                num_actors_seen := setk c.num_actors_seen opId 2,
                num_actors_read := setk c.num_actors_read opId 1 }, .ok v) := by
    rw [wait_p2p_complete_nonlast_none _ opId (setk_same c.data opId v)
        (by simp [getd_none hr, hn])]
    simp [getd_none hr]
  have e4 : wait_p2p_complete
      ({ c with data := setk c.data opId v,
                num_actors_seen := setk c.num_actors_seen opId 2,
                num_actors_read := setk c.num_actors_read opId 1 } : CommState) opId (some v) =
      (c, .ok v) := by
    rw [wait_p2p_complete_last_some _ opId v (setk_same c.data opId v)
        (setk_same c.num_actors_seen opId 2)
        (by simp [getd_some (setk_same c.num_actors_read opId 1), hn])]
    refine Prod.ext ?_ rfl
    exact CommState.ext_of (by simp) (by simp [delk_setk, delk_eq_self hd])
      (by simp) (by simp [delk_setk, delk_eq_self hs])
      (by simp [delk_setk, delk_eq_self hr])
  refine ⟨?_, ?_, ?_, ?_, ?_⟩
  · rw [e1]
    exact ⟨setk_same c.data opId v, setk_same c.num_actors_seen opId 1, hr⟩
  · rw [wait_p2p_arrive_none_spec]
    simp [getd_none hs, hd, hr]
  · rw [e1]
    simp only []
    rw [e2]
    simp only []
    rw [e3]
    exact ⟨setk_same c.data opId v, setk_same c.num_actors_seen opId 2,
      setk_same c.num_actors_read opId 1⟩
  · rw [e1]
    simp only []
    rw [e2]
    simp only []
    rw [e3]
    simp only []
    rw [e4]
  · intro c' opId' vs op t hf' hn' hne' happ'
    obtain ⟨hd', hcd', hs', hr'⟩ := hf'
    have harr := wait_collective_arrive_all_spec c' opId' vs op hcd' hs' hn'.symm hne' happ'
    have hpos : 1 ≤ c'.num_actors := by
      rw [hn']; exact List.length_pos.mpr hne'
    refine ⟨?_, ?_⟩
    · rw [harr]
      refine ⟨setk_same c'.collective_data opId' (.computed t), ?_, hr'⟩
      rw [show (coll_done c' opId' t c'.num_actors).num_actors_seen opId' =
          some c'.num_actors from setk_same c'.num_actors_seen opId' c'.num_actors, hn']
    · rw [harr]
      simp only []
      rw [← hn', wait_collective_complete_n_spec c' opId' t c'.num_actors hcd' hs' hr' hpos]

end ClaimC5

section ClaimsRest

/-- Witness for claim C5 on a fresh arity two communicator. -/
theorem claim_c5_witness :
    ((wait_p2p_arrive (CommState.empty 2) 0 (some [7])).1.data 0 = some [7] ∧
     (wait_p2p_arrive (CommState.empty 2) 0 (some [7])).1.num_actors_seen 0 = some 1 ∧
     (wait_p2p_arrive (CommState.empty 2) 0 (some [7])).1.num_actors_read 0 = none) ∧
    (wait_p2p_complete
      (wait_p2p_complete
        (wait_p2p_arrive (wait_p2p_arrive (CommState.empty 2) 0 (some [7])).1 0 none).1
        0 none).1 0 (some [7])).1 = CommState.empty 2 :=
  ⟨(claim_c5_amended_lifecycle (CommState.empty 2) 0 [7] ⟨rfl, rfl, rfl, rfl⟩ rfl).1,
   (claim_c5_amended_lifecycle (CommState.empty 2) 0 [7] ⟨rfl, rfl, rfl, rfl⟩ rfl).2.2.2.1⟩

/-- CLAIM C6: the key computed by send at rank s towards r equals, byte
for byte, the key computed by recv at rank r from peer s; both per key
counters start at 0 and advance by exactly one per completed call, so a
sequence of matched sends and recvs observes FIFO pairing, round i using
op id i and delivering the tensor of round i. -/
theorem claim_c6_keys_and_fifo :
    (∀ s r : Nat, send_comm_key s r = recv_comm_key s r) ∧
    (∀ (c : CommState) (vs : List Tensor), (∀ j, fresh_at c j) → c.num_actors = 2 →
      run_send_recv_rounds ⟨c, 0, 0⟩ vs =
        (⟨c, vs.length, vs.length⟩,
         (List.range' 0 vs.length).zip (vs.map (fun t => some (Except.ok t))))) := by
  refine ⟨fun s r => rfl, fun c vs hall hn => ?_⟩
  have h := run_send_recv_rounds_spec c hn hall vs 0
  simpa using h

/-- Witness for claim C6 on three rounds. -/
theorem claim_c6_witness :
    send_comm_key 0 1 = recv_comm_key 0 1 ∧
    run_send_recv_rounds ⟨CommState.empty 2, 0, 0⟩ [[1], [2], [3]] =
      (⟨CommState.empty 2, 3, 3⟩,
       [(0, some (Except.ok [1])), (1, some (Except.ok [2])), (2, some (Except.ok [3]))]) :=
  ⟨(claim_c6_keys_and_fifo).1 0 1,
   (claim_c6_keys_and_fifo).2 (CommState.empty 2) [[1], [2], [3]]
     (fun _ => ⟨rfl, rfl, rfl, rfl⟩) rfl⟩

/-- CLAIM C7: bind raises an error when any producer resolves to no
owning actor; on success it returns exactly one output descriptor per
producer, in input order, each holding the one shared collective
operation value built from the full input list. -/
theorem claim_c7_allgather_bind (bind_idx : Nat → Nat) (input_nodes : List DAGNode)
    (transport : Option String) :
    ((∃ nd ∈ input_nodes, nd.actor_handle = none) →
      allgather_bind bind_idx input_nodes transport =
        .error "Expected an actor handle from the input node") ∧
    ((∀ nd ∈ input_nodes, (nd.actor_handle).isSome) →
      ∃ bi2 outs, allgather_bind bind_idx input_nodes transport = .ok (bi2, outs) ∧
        outs.length = input_nodes.length ∧
        outs.map (fun o => o.method_args) = input_nodes ∧
        ∀ o ∈ outs, o.collective_operation =
          { input_nodes := input_nodes, op := .CONCAT,
            transport := transport.getD "nccl" }) := by
  constructor
  · intro h
    exact bind_loop_missing_handle input_nodes _ bind_idx h
  · intro h
    obtain ⟨bi2, outs, hb, hm, _, hcop, _⟩ :=
      bind_loop_ok input_nodes
        { input_nodes := input_nodes, op := .CONCAT, transport := transport.getD "nccl" }
        bind_idx h
    refine ⟨bi2, outs, hb, ?_, hm, hcop⟩
    rw [← hm]; simp

/-- Witness for claim C7: one input without a handle is rejected, two
inputs with handles produce two descriptors sharing the operation. -/
theorem claim_c7_witness :
    allgather_bind (fun _ => 0) [⟨0, none⟩] none =
      .error "Expected an actor handle from the input node" ∧
    ∃ bi2 outs,
      allgather_bind (fun _ => 0) [⟨1, some 5⟩, ⟨2, some 7⟩] none = .ok (bi2, outs) ∧
      outs.length = 2 ∧
      outs.map (fun o => o.method_args) = [⟨1, some 5⟩, ⟨2, some 7⟩] ∧
      ∀ o ∈ outs, o.collective_operation =
        { input_nodes := [⟨1, some 5⟩, ⟨2, some 7⟩], op := .CONCAT, transport := "nccl" } :=
  ⟨(claim_c7_allgather_bind (fun _ => 0) [⟨0, none⟩] none).1
      ⟨⟨0, none⟩, by simp, rfl⟩,
   (claim_c7_allgather_bind (fun _ => 0) [⟨1, some 5⟩, ⟨2, some 7⟩] none).2
      (by decide)⟩

/-- Counterexample to claim C8 as stated: resolving an existing group
key with a different participant count is silently accepted, not
rejected; the registry is unchanged and the communicator keeps its
original arity, with no error raised on the mismatch. -/
theorem claim_c8_counterexample :
    ensure_communicator_exists (setk (fun _ => none) "communicator-0-1" 2) 5
        "communicator-0-1" false =
      setk (fun _ => none) "communicator-0-1" 2 ∧
    ensure_communicator_exists (setk (fun _ => none) "communicator-0-1" 2) 5
        "communicator-0-1" false "communicator-0-1" = some 2 := by
  constructor
  · simp [ensure_communicator_exists]
  · simp [ensure_communicator_exists]

/-- CLAIM C8 amended: when a communicator for a group key already
exists, resolving that key again returns with the registry unchanged,
whatever participant count is passed: the count is ignored and no check
or error occurs. -/
theorem claim_c8_amended_existing_key (registry : String → Option Nat) (ws : Nat)
    (key : String) (p : Bool) (n : Nat) (h : registry key = some n) :
    ensure_communicator_exists registry ws key p = registry ∧
    ensure_communicator_exists registry ws key p key = some n := by
  unfold ensure_communicator_exists
  rw [h]
  exact ⟨rfl, h⟩

/-- Witness for the amended claim C8. -/
theorem claim_c8_witness :
    ensure_communicator_exists (setk (fun _ => none) "communicator-2-3" 2) 7
        "communicator-2-3" true =
      setk (fun _ => none) "communicator-2-3" 2 ∧
    ensure_communicator_exists (setk (fun _ => none) "communicator-2-3" 2) 7
        "communicator-2-3" true "communicator-2-3" = some 2 :=
  claim_c8_amended_existing_key (setk (fun _ => none) "communicator-2-3" 2) 7
    "communicator-2-3" true 2 (by simp)

/-- State of the communicator after the two point to point callers for
one op id have both arrived without supplying a value. -/
def p2p_both_arrive_no_value (c : CommState) (opId : Nat) : CommState :=
  (wait_p2p_arrive (wait_p2p_arrive c opId none).1 opId none).1

/-- CLAIM C9: if neither point to point caller supplies a value for an
op id, then once both have arrived each attempt to read the absent
staged value fails with a lookup error instead of returning, the state
is unchanged by the failing read, and the per op id state is not fully
cleaned up: the arrival count entry remains. -/
theorem claim_c9_no_value_lookup_error (c : CommState) (opId : Nat)
    (hf : fresh_at c opId) (hn : c.num_actors = 2) :
    wait_p2p_complete (p2p_both_arrive_no_value c opId) opId none =
      (p2p_both_arrive_no_value c opId, .error .keyError) ∧
    (p2p_both_arrive_no_value c opId).num_actors_seen opId = some 2 ∧
    (p2p_both_arrive_no_value c opId).data opId = none ∧
    (p2p_both_arrive_no_value c opId).num_actors_read opId = none := by
  obtain ⟨hd, hcd, hs, hr⟩ := hf
  have e : p2p_both_arrive_no_value c opId =
      { c with num_actors_seen := setk c.num_actors_seen opId 2 } := by
    unfold p2p_both_arrive_no_value
    rw [wait_p2p_arrive_none_spec c opId]
    simp only [getd_none hs, Nat.zero_add]
    rw [wait_p2p_arrive_none_spec]
    simp [getd_some (setk_same c.num_actors_seen opId 1), setk_setk]
  rw [e]
  refine ⟨?_, setk_same c.num_actors_seen opId 2, hd, hr⟩
  simp [wait_p2p_complete, hd]

/-- Witness for claim C9 on a fresh arity two communicator. -/
theorem claim_c9_witness :
    wait_p2p_complete (p2p_both_arrive_no_value (CommState.empty 2) 0) 0 none =
      (p2p_both_arrive_no_value (CommState.empty 2) 0, .error .keyError) ∧
    (p2p_both_arrive_no_value (CommState.empty 2) 0).num_actors_seen 0 = some 2 ∧
    (p2p_both_arrive_no_value (CommState.empty 2) 0).data 0 = none ∧
    (p2p_both_arrive_no_value (CommState.empty 2) 0).num_actors_read 0 = none :=
  claim_c9_no_value_lookup_error (CommState.empty 2) 0 ⟨rfl, rfl, rfl, rfl⟩ rfl

/-- CLAIM C10: the reduction never mutates any input tensor object: for
every reduction kind the successful result is written into a freshly
allocated cell, every contributed cell holds its old value afterwards,
and the result cell is none of the input cells. -/
theorem claim_c10_apply_op_no_mutation (op : CollectiveOp) (h : Heap)
    (tensors : List Nat) (h' : Heap) (res : Nat)
    (hvalid : ∀ a ∈ tensors, a < h.next)
    (hok : apply_op_heap op h tensors = .ok (h', res)) :
    (∀ a ∈ tensors, h'.mem a = h.mem a) ∧ h.next ≤ res ∧ res ∉ tensors := by
  obtain ⟨hm, hge, hnin⟩ := apply_op_heap_frame op h tensors h' res hvalid hok
  exact ⟨fun a ha => hm a (hvalid a ha), hge, hnin⟩

end ClaimsRest

/-- Witness for claim C10: an in place sum over two live tensor cells
leaves both input cells unchanged and writes the result to a fresh
cell. -/
theorem claim_c10_witness :
    ({ mem := setk (setk (setk (setk (fun _ => none) 0 [(1 : ℚ), 2]) 1 [3, 4]) 2 [1, 2])
          2 [4, 6], next := 3 } : Heap).mem 0 =
      ({ mem := setk (setk (fun _ => none) 0 [(1 : ℚ), 2]) 1 [3, 4], next := 2 } : Heap).mem 0 ∧
    ({ mem := setk (setk (setk (setk (fun _ => none) 0 [(1 : ℚ), 2]) 1 [3, 4]) 2 [1, 2])
          2 [4, 6], next := 3 } : Heap).mem 1 =
      ({ mem := setk (setk (fun _ => none) 0 [(1 : ℚ), 2]) 1 [3, 4], next := 2 } : Heap).mem 1 ∧
    ({ mem := setk (setk (fun _ => none) 0 [(1 : ℚ), 2]) 1 [3, 4], next := 2 } : Heap).next ≤ 2 ∧
    2 ∉ ([0, 1] : List Nat) := by
  have h := claim_c10_apply_op_no_mutation .SUM
    { mem := setk (setk (fun _ => none) 0 [(1 : ℚ), 2]) 1 [3, 4], next := 2 } [0, 1]
    { mem := setk (setk (setk (setk (fun _ => none) 0 [(1 : ℚ), 2]) 1 [3, 4]) 2 [1, 2])
        2 [4, 6], next := 3 } 2
    (by decide)
    (by norm_num [apply_op_heap, halloc, hread, hbin_inplace, fold_inplace, setk])
  exact ⟨h.1 0 (by decide), h.1 1 (by decide), h.2.1, h.2.2⟩
